import Mathlib

/-!
Verification of the igor named-arguments library (include/igor/igor.hpp).

The library is a C++ compile-time facility: a call's argument list is a
heterogeneous pack in which some elements are `tagged_container<Tag, T>`
values (a named argument: a tag paired with a value) and the rest are
plain, unnamed arguments.  We embed an argument list as a `List (Arg V)`
where each element is either a binding (tag and value) or an unnamed
value; tags are modelled as natural numbers (tag identity is the only
thing the code ever inspects) and values by an arbitrary type `V`.
-/

namespace Igor

/-- An element of a call's argument list: either a named argument
(`tagged_container<Tag, T>` in the source, i.e. a tag together with a
value) or a plain unnamed argument. -/
inductive Arg (V : Type) where
  | binding (tag : Nat) (value : V)
  | unnamed (value : V)
deriving DecidableEq, Repr

/-- `is_tagged_container<Tag, T>`: `a` is a tagged container whose tag is
`tag` (any value). -/
def is_tagged_container {V : Type} (tag : Nat) : Arg V → Bool
  | .binding t _ => t == tag
  | .unnamed _ => false

/-- `is_tagged_container_any<T>`: `a` is a tagged container, regardless of
its tag. -/
def is_tagged_container_any {V : Type} : Arg V → Bool
  | .binding _ _ => true
  | .unnamed _ => false

/-- `igor::has<Args...>(narg)`: the left fold
`(... || is_tagged_container<Tag, uncvref_t<Args>>::value)` over the
argument pack. -/
def has {V : Type} (args : List (Arg V)) (tag : Nat) : Bool :=
  args.foldl (fun acc a => acc || is_tagged_container tag a) false

/-- `igor::has_all<Args...>(nargs...)`: the left fold
`(... && igor::has<Args...>(nargs))` over the queried tags. -/
def has_all {V : Type} (args : List (Arg V)) (tags : List Nat) : Bool :=
  tags.foldl (fun acc t => acc && has args t) true

/-- `igor::has_any<Args...>(nargs...)`: the left fold
`(... || igor::has<Args...>(nargs))` over the queried tags. -/
def has_any {V : Type} (args : List (Arg V)) (tags : List Nat) : Bool :=
  tags.foldl (fun acc t => acc || has args t) false

/-- `igor::has_unnamed_arguments<Args...>()`: the left fold
`(... || !is_tagged_container_any<uncvref_t<Args>>::value)`. -/
def has_unnamed_arguments {V : Type} (args : List (Arg V)) : Bool :=
  args.foldl (fun acc a => acc || !is_tagged_container_any a) false

/-- `igor::has_other_than<Args...>(nargs...)`: the number of queried tags
present in the pack (first fold) compared with the total number of named
arguments in the pack (second fold); true when the first is strictly
smaller. -/
def has_other_than {V : Type} (args : List (Arg V)) (tags : List Nat) : Bool :=
  decide ((tags.foldl (fun n t => n + (if has args t then 1 else 0)) 0)
        < (args.foldl (fun n a => n + (if is_tagged_container_any a then 1 else 0)) 0))

/-- `build_parser_tuple(args...)`: the overload for a leading
`tagged_container` keeps it, the generic overload drops the leading
argument, and the nullary overload returns the empty tuple. -/
def build_parser_tuple {V : Type} : List (Arg V) → List (Nat × V)
  | [] => []
  | .binding t v :: rest => (t, v) :: build_parser_tuple rest
  | .unnamed _ :: rest => build_parser_tuple rest

/-- The result of fetching one named argument from a parser: either a
const reference to the global `not_provided` sentinel, or the stored
value. -/
inductive FetchResult (V : Type) where
  | not_provided
  | value (v : V)
deriving DecidableEq, Repr

/-- `parser::fetch_one_impl<I, Tag>`: scan the stored tuple from the
front; past the end return `not_provided`, on the first element whose tag
type matches return its value, otherwise recurse on the next index. -/
def fetch_one_impl {V : Type} : List (Nat × V) → Nat → FetchResult V
  | [], _ => .not_provided
  | (t, v) :: rest, tag => if t == tag then .value v else fetch_one_impl rest tag

/-- `igor::parser<ParseArgs...>`: holds the tuple `m_nargs` built from the
construction arguments. -/
structure parser (V : Type) where
  m_nargs : List (Nat × V)
deriving DecidableEq, Repr

/-- The parser constructor: `m_nargs(build_parser_tuple(parse_args...))`. -/
def parser.ofArgs {V : Type} (parse_args : List (Arg V)) : parser V :=
  ⟨build_parser_tuple parse_args⟩

/-- The result of `parser::operator()(nargs...)`: `void` for zero tags, a
single fetch result for one tag, a tuple of fetch results otherwise. -/
inductive CallResult (V : Type) where
  | unit
  | single (r : FetchResult V)
  | tup (rs : List (FetchResult V))
deriving DecidableEq, Repr

/-- `parser::operator()(nargs...)`: zero tags returns nothing, one tag
returns `fetch_one_impl<0>(narg)`, several tags return the tuple of the
independent per-tag `fetch_one_impl<0>` results. -/
def parser.call {V : Type} (p : parser V) (tags : List Nat) : CallResult V :=
  match tags with
  | [] => .unit
  | [t] => .single (fetch_one_impl p.m_nargs t)
  | ts => .tup (ts.map (fetch_one_impl p.m_nargs))

/-- Static member `parser::has`, a wrapper over
`igor::has<ParseArgs...>`; the parser's construction argument type list is
the `parse_args` parameter. -/
def parser.has {V : Type} (parse_args : List (Arg V)) (tag : Nat) : Bool :=
  Igor.has parse_args tag

/-- Static member `parser::has_all`, wrapping `igor::has_all<ParseArgs...>`. -/
def parser.has_all {V : Type} (parse_args : List (Arg V)) (tags : List Nat) : Bool :=
  Igor.has_all parse_args tags

/-- Static member `parser::has_any`, wrapping `igor::has_any<ParseArgs...>`. -/
def parser.has_any {V : Type} (parse_args : List (Arg V)) (tags : List Nat) : Bool :=
  Igor.has_any parse_args tags

/-- Static member `parser::has_unnamed_arguments`, wrapping
`igor::has_unnamed_arguments<ParseArgs...>`. -/
def parser.has_unnamed_arguments {V : Type} (parse_args : List (Arg V)) : Bool :=
  Igor.has_unnamed_arguments parse_args

/-- Static member `parser::has_other_than`, wrapping
`igor::has_other_than<ParseArgs...>`. -/
def parser.has_other_than {V : Type} (parse_args : List (Arg V)) (tags : List Nat) : Bool :=
  Igor.has_other_than parse_args tags

end Igor

namespace Igor

/-! ### Helper lemmas shared across the claims -/

theorem foldl_or_eq {α : Type} (f : α → Bool) (l : List α) (b : Bool) :
    l.foldl (fun acc a => acc || f a) b = (b || l.any f) := by
  induction l generalizing b with
  | nil => simp
  | cons a l ih => simp [List.foldl_cons, ih, Bool.or_assoc]

theorem foldl_and_eq {α : Type} (f : α → Bool) (l : List α) (b : Bool) :
    l.foldl (fun acc a => acc && f a) b = (b && l.all f) := by
  induction l generalizing b with
  | nil => simp
  | cons a l ih => simp [List.foldl_cons, ih, Bool.and_assoc]

theorem foldl_count_eq {α : Type} (f : α → Bool) (l : List α) (n : Nat) :
    l.foldl (fun m a => m + (if f a then 1 else 0)) n = n + l.countP f := by
  induction l generalizing n with
  | nil => simp
  | cons a l ih =>
    rw [List.foldl_cons, ih, List.countP_cons]
    cases h : f a
    · simp [h]
    · simp [h]
      omega

theorem has_eq_any {V : Type} (args : List (Arg V)) (tag : Nat) :
    has args tag = args.any (is_tagged_container tag) := by
  rw [has, foldl_or_eq, Bool.false_or]

theorem has_other_than_eq_countP {V : Type} (args : List (Arg V)) (tags : List Nat) :
    has_other_than args tags
      = decide (tags.countP (fun t => has args t)
                < args.countP (fun a => is_tagged_container_any a)) := by
  rw [has_other_than, foldl_count_eq, foldl_count_eq, Nat.zero_add, Nat.zero_add]

/-! ### The claims -/

/-- C1: fetching a single tag T from a parser built from argument list L
returns the value of the first Binding for T in construction order when at
least one Binding for T was retained, and the not_provided sentinel
otherwise; in particular a parser built from two Bindings both tagged 0
with values 1 then 2 fetches tag 0 as 1. -/
theorem fetch_first_match :
    (∀ (L : List (Arg Nat)) (T : Nat),
      (parser.ofArgs L).call [T] =
        CallResult.single
          (match L.find? (is_tagged_container T) with
           | some (Arg.binding _ v) => FetchResult.value v
           | _ => FetchResult.not_provided)) ∧
    (parser.ofArgs [Arg.binding 0 1, Arg.binding 0 (2 : Nat)]).call [0]
      = CallResult.single (FetchResult.value 1) := by
  constructor
  · intro L T
    show CallResult.single (fetch_one_impl (build_parser_tuple L) T) = _
    congr 1
    induction L with
    | nil => rfl
    | cons a rest ih =>
      cases a with
      | binding t v =>
        cases h : (t == T) with
        | true =>
          simp [build_parser_tuple, fetch_one_impl, is_tagged_container, h]
        | false =>
          simpa [build_parser_tuple, fetch_one_impl, is_tagged_container, h] using ih
      | unnamed v =>
        simpa [build_parser_tuple, is_tagged_container] using ih
  · rfl

/-- C2 counterexample: for L = [Binding 0 with value 1, Binding 0 with
value 2] and query tags [0], has_other_than returns true, yet the number
of Bindings in L (2) does not strictly exceed the number of Bindings in L
whose tag is among the query tags (also 2), so the claimed equivalence
fails. -/
theorem has_other_than_count_counterexample :
    ¬ (has_other_than [Arg.binding 0 1, Arg.binding 0 (2 : Nat)] [0] = true ↔
        List.countP (fun a => is_tagged_container 0 a)
            [Arg.binding 0 1, Arg.binding 0 (2 : Nat)]
          < List.countP (fun a => is_tagged_container_any a)
            [Arg.binding 0 1, Arg.binding 0 (2 : Nat)]) := by
  decide

/-- C2 amended: has_other_than L tags is true iff the number of query tags
that are present in L (each query tag counted once per occurrence in the
query, regardless of how many Bindings carry it) is strictly smaller than
the total number of Bindings in L. -/
theorem has_other_than_present_tags (L : List (Arg Nat)) (tags : List Nat) :
    has_other_than L tags = true ↔
      List.countP (fun t => has L t) tags
        < List.countP (fun a => is_tagged_container_any a) L := by
  rw [has_other_than_eq_countP]
  exact decide_eq_true_iff

/-- C3: has L T is true iff at least one element of L is a Binding for T,
and the result is invariant under any permutation of L. -/
theorem has_iff_mem_and_perm (L : List (Arg Nat)) (T : Nat) :
    (has L T = true ↔ ∃ a ∈ L, is_tagged_container T a = true) ∧
    (∀ M : List (Arg Nat), L.Perm M → has M T = has L T) := by
  constructor
  · rw [has_eq_any, List.any_eq_true]
  · intro M hp
    rw [has_eq_any, has_eq_any, Bool.eq_iff_iff, List.any_eq_true, List.any_eq_true]
    exact ⟨fun ⟨a, h1, h2⟩ => ⟨a, hp.mem_iff.mpr h1, h2⟩,
           fun ⟨a, h1, h2⟩ => ⟨a, hp.mem_iff.mp h1, h2⟩⟩

/-- C3 witness: concrete instance of permutation invariance of has. -/
theorem has_iff_mem_and_perm_witness :
    has [Arg.unnamed (2 : Nat), Arg.binding 0 1] 0
      = has [Arg.binding 0 1, Arg.unnamed (2 : Nat)] 0 :=
  (has_iff_mem_and_perm [Arg.binding 0 1, Arg.unnamed 2] 0).2
    [Arg.unnamed 2, Arg.binding 0 1]
    (List.Perm.swap (Arg.unnamed 2) (Arg.binding 0 1) [])

/-- C4: has_all over two tags is the conjunction of the per-tag has
results and has_any is their disjunction; for any number of tags they are
the pointwise all/any of has over the queried tags. -/
theorem has_all_has_any_pointwise (L : List (Arg Nat)) (A B : Nat) (tags : List Nat) :
    has_all L [A, B] = (has L A && has L B) ∧
    has_any L [A, B] = (has L A || has L B) ∧
    has_all L tags = tags.all (has L) ∧
    has_any L tags = tags.any (has L) := by
  refine ⟨?_, ?_, ?_, ?_⟩ <;>
    simp [has_all, has_any, foldl_and_eq, foldl_or_eq]

/-- C5: has_unnamed_arguments L is true iff L contains at least one
element that is not a Binding. -/
theorem has_unnamed_arguments_iff (L : List (Arg Nat)) :
    has_unnamed_arguments L = true ↔ ∃ a ∈ L, is_tagged_container_any a = false := by
  rw [has_unnamed_arguments, foldl_or_eq, Bool.false_or, List.any_eq_true]
  simp

/-- C6: the parser constructor stores exactly the sub-list of Bindings of
its construction arguments, in their original relative order, dropping
every non-Binding element. -/
theorem parser_ofArgs_filters (L : List (Arg Nat)) :
    (parser.ofArgs L).m_nargs
      = L.filterMap (fun a => match a with
          | Arg.binding t v => some (t, v)
          | Arg.unnamed _ => none) := by
  show build_parser_tuple L = _
  induction L with
  | nil => rfl
  | cons a rest ih =>
    cases a <;> simp [build_parser_tuple, List.filterMap_cons, ih]

/-- C7: calling a parser with zero tags produces nothing observable, and
calling it with two or more tags yields the tuple of the independent
per-tag fetch results, whose i-th component is the single-tag fetch of the
i-th queried tag. -/
theorem call_empty_and_tuple (p : parser Nat) (t1 t2 : Nat) (rest : List Nat) :
    p.call [] = CallResult.unit ∧
    p.call (t1 :: t2 :: rest)
      = CallResult.tup ((t1 :: t2 :: rest).map (fetch_one_impl p.m_nargs)) ∧
    ∀ i : Nat,
      ((t1 :: t2 :: rest).map (fetch_one_impl p.m_nargs))[i]?
        = Option.map (fetch_one_impl p.m_nargs) (t1 :: t2 :: rest)[i]? := by
  refine ⟨rfl, rfl, fun i => ?_⟩
  rcases i with _ | _ | j <;> simp [List.getElem?_map]

/-- C8: each static parser query coincides with the corresponding free
function applied to the parser's construction argument list. -/
theorem parser_static_matches_free (L : List (Arg Nat)) (tags : List Nat) (t : Nat) :
    parser.has L t = has L t ∧
    parser.has_all L tags = has_all L tags ∧
    parser.has_any L tags = has_any L tags ∧
    parser.has_unnamed_arguments L = has_unnamed_arguments L ∧
    parser.has_other_than L tags = has_other_than L tags :=
  ⟨rfl, rfl, rfl, rfl, rfl⟩

/-- C9: has_other_than with zero query tags is true iff L contains at
least one Binding. -/
theorem has_other_than_no_tags (L : List (Arg Nat)) :
    has_other_than L [] = true ↔ ∃ a ∈ L, is_tagged_container_any a = true := by
  rw [has_other_than_eq_countP, decide_eq_true_iff]
  simp [List.countP_pos_iff]

/-- C10: over a parser built from L, if has L T is false then fetching T
yields the not_provided sentinel, and if has L T is true then fetching T
yields the value of some Binding for T retained in the parser's tuple. -/
theorem fetch_absent_present (L : List (Arg Nat)) (T : Nat) :
    (has L T = false →
      fetch_one_impl (build_parser_tuple L) T = FetchResult.not_provided) ∧
    (has L T = true →
      ∃ v, (T, v) ∈ build_parser_tuple L ∧
        fetch_one_impl (build_parser_tuple L) T = FetchResult.value v) := by
  induction L with
  | nil => exact ⟨fun _ => rfl, fun h => by simp [has] at h⟩
  | cons a rest ih =>
    have hcons : has (a :: rest) T = (is_tagged_container T a || has rest T) := by
      rw [has_eq_any, has_eq_any, List.any_cons]
    cases a with
    | binding t v =>
      have hb : build_parser_tuple (Arg.binding t v :: rest)
          = (t, v) :: build_parser_tuple rest := rfl
      by_cases ht : t = T
      · subst ht
        refine ⟨fun h => ?_, fun _ => ⟨v, ?_, ?_⟩⟩
        · rw [hcons] at h
          simp [is_tagged_container] at h
        · simp [hb]
        · simp [hb, fetch_one_impl]
      · have hi : is_tagged_container T (Arg.binding t v) = false := by
          simp [is_tagged_container, ht]
        constructor
        · intro h
          rw [hcons, hi, Bool.false_or] at h
          simpa [hb, fetch_one_impl, ht] using ih.1 h
        · intro h
          rw [hcons, hi, Bool.false_or] at h
          obtain ⟨w, hm, hf⟩ := ih.2 h
          exact ⟨w, by simp [hb, hm], by simpa [hb, fetch_one_impl, ht] using hf⟩
    | unnamed v =>
      have hb : build_parser_tuple (Arg.unnamed v :: rest) = build_parser_tuple rest := rfl
      have h1 : has (Arg.unnamed v :: rest) T = has rest T := by
        rw [hcons]
        simp [is_tagged_container]
      rw [hb, h1]
      exact ih

/-- C10 witness: fetching an absent tag on a concrete parser yields the
not_provided sentinel. -/
theorem fetch_absent_present_witness :
    fetch_one_impl (build_parser_tuple [Arg.unnamed (5 : Nat), Arg.binding 0 7]) 1
      = FetchResult.not_provided :=
  (fetch_absent_present [Arg.unnamed 5, Arg.binding 0 7] 1).1 (by decide)
